import Mathlib

set_option maxRecDepth 10000

/-!
Verification of the telegram-bot-project repository against its specification.

The Python sources are shallowly embedded as Lean definitions:

* strings are modelled as Lean `String` / `List Char` (Python strings are
  sequences of code points, `len` is the number of code points);
* `hashlib.md5` is embedded as a full executable MD5 implementation over
  UTF-8 byte lists (RFC 1321);
* the scheduler's mutable JSON state file is modelled as an explicit state
  value threaded through the job functions; the retry thread of a job is
  modelled as running serially after the first attempt, with the outcome of
  each delivery attempt supplied by an environment function;
* network results (parsed HTML strategy outputs, HTTP outcomes, poll
  results, the body of `send_news`) are supplied as parameters, since they
  are produced by external collaborators;
* a Python `set` of strings is modelled by its canonical enumeration
  (sorted, deduplicated): set iteration order is hash-based and carries no
  insertion-order information, which the canonical form makes explicit.
-/

/-! ## news_scraper._article_hash: MD5 over `f"{title.strip()}|{link.strip()}"` -/

def M32 : Nat := 4294967296

/-- 32-bit left rotation. -/
def rotl32 (x s : Nat) : Nat := ((x <<< s) % M32) ||| (x >>> (32 - s))

def mdF (b c d : Nat) : Nat := (b &&& c) ||| ((b ^^^ 4294967295) &&& d)

def mdG (b c d : Nat) : Nat := (d &&& b) ||| ((d ^^^ 4294967295) &&& c)

def mdH (b c d : Nat) : Nat := b ^^^ c ^^^ d

def mdI (b c d : Nat) : Nat := c ^^^ (b ||| (d ^^^ 4294967295))

/-- MD5 per-round shift amounts (RFC 1321). -/
def mdS : List Nat :=
  [7, 12, 17, 22, 7, 12, 17, 22, 7, 12, 17, 22, 7, 12, 17, 22,
   5, 9, 14, 20, 5, 9, 14, 20, 5, 9, 14, 20, 5, 9, 14, 20,
   4, 11, 16, 23, 4, 11, 16, 23, 4, 11, 16, 23, 4, 11, 16, 23,
   6, 10, 15, 21, 6, 10, 15, 21, 6, 10, 15, 21, 6, 10, 15, 21]

/-- MD5 sine-derived constants `K[i] = floor(abs(sin(i+1)) * 2^32)` (RFC 1321). -/
def mdK : List Nat :=
  [3614090360, 3905402710, 606105819, 3250441966, 4118548399, 1200080426,
   2821735955, 4249261313, 1770035416, 2336552879, 4294925233, 2304563134,
   1804603682, 4254626195, 2792965006, 1236535329, 4129170786, 3225465664,
   643717713, 3921069994, 3593408605, 38016083, 3634488961, 3889429448,
   568446438, 3275163606, 4107603335, 1163531501, 2850285829, 4243563512,
   1735328473, 2368359562, 4294588738, 2272392833, 1839030562, 4259657740,
   2763975236, 1272893353, 4139469664, 3200236656, 681279174, 3936430074,
   3572445317, 76029189, 3654602809, 3873151461, 530742520, 3299628645,
   4096336452, 1126891415, 2878612391, 4237533241, 1700485571, 2399980690,
   4293915773, 2240044497, 1873313359, 4264355552, 2734768916, 1309151649,
   4149444226, 3174756917, 718787259, 3951481745]

structure MDState where
  a : Nat
  b : Nat
  c : Nat
  d : Nat
deriving DecidableEq

def md5Init : MDState := ⟨1732584193, 4023233417, 2562383102, 271733878⟩

/-- One MD5 round, `m` being the 16 message words of the current chunk. -/
def mdRound (m : Nat → Nat) (st : MDState) (i : Nat) : MDState :=
  let fg :=
    if i < 16 then (mdF st.b st.c st.d, i)
    else if i < 32 then (mdG st.b st.c st.d, (5 * i + 1) % 16)
    else if i < 48 then (mdH st.b st.c st.d, (3 * i + 5) % 16)
    else (mdI st.b st.c st.d, (7 * i) % 16)
  let tmp := (st.a + fg.1 + mdK.getD i 0 + m fg.2) % M32
  ⟨st.d, (st.b + rotl32 tmp (mdS.getD i 0)) % M32, st.b, st.c⟩

/-- Little-endian 32-bit word `g` of a 64-byte chunk. -/
def chunkWord (chunk : List Nat) (g : Nat) : Nat :=
  chunk.getD (4 * g) 0 + ((chunk.getD (4 * g + 1) 0) <<< 8) +
    ((chunk.getD (4 * g + 2) 0) <<< 16) + ((chunk.getD (4 * g + 3) 0) <<< 24)

/-- Process one 64-byte chunk. -/
def mdBlock (h : MDState) (chunk : List Nat) : MDState :=
  let r := (List.range 64).foldl (mdRound (chunkWord chunk)) h
  ⟨(h.a + r.a) % M32, (h.b + r.b) % M32, (h.c + r.c) % M32, (h.d + r.d) % M32⟩

/-- `n` little-endian bytes of `v`. -/
def leBytes (v n : Nat) : List Nat :=
  (List.range n).map (fun i => (v >>> (8 * i)) &&& 255)

/-- MD5 padding: `0x80`, zeros to 56 mod 64, then the 64-bit LE bit length. -/
def md5Pad (msg : List Nat) : List Nat :=
  let len := msg.length
  let k := (119 - len % 64) % 64
  msg ++ 128 :: List.replicate k 0 ++ leBytes ((8 * len) % (2 ^ 64)) 8

def md5Loop : Nat → MDState → List Nat → MDState
  | 0, h, _ => h
  | fuel + 1, h, bytes => md5Loop fuel (mdBlock h (bytes.take 64)) (bytes.drop 64)

def md5Bytes (msg : List Nat) : MDState :=
  let padded := md5Pad msg
  md5Loop (padded.length / 64) md5Init padded

def hexDigit (n : Nat) : Char :=
  if n < 10 then Char.ofNat (48 + n) else Char.ofNat (87 + n)

def byteHex (b : Nat) : List Char := [hexDigit (b / 16), hexDigit (b % 16)]

/-- Lowercase hex digest, words serialized little-endian as in `hexdigest()`. -/
def md5Hex (msg : List Nat) : String :=
  let st := md5Bytes msg
  String.mk ((leBytes st.a 4 ++ leBytes st.b 4 ++ leBytes st.c 4 ++ leBytes st.d 4).flatMap byteHex)

/-- UTF-8 encoding of one code point (`str.encode("utf-8")`). -/
def utf8Char (c : Char) : List Nat :=
  let n := c.toNat
  if n < 128 then [n]
  else if n < 2048 then [192 ||| (n >>> 6), 128 ||| (n &&& 63)]
  else if n < 65536 then
    [224 ||| (n >>> 12), 128 ||| ((n >>> 6) &&& 63), 128 ||| (n &&& 63)]
  else
    [240 ||| (n >>> 18), 128 ||| ((n >>> 12) &&& 63),
     128 ||| ((n >>> 6) &&& 63), 128 ||| (n &&& 63)]

def utf8Bytes (s : List Char) : List Nat := s.flatMap utf8Char

/-- The ASCII whitespace characters removed by Python `str.strip()`. -/
def pyStripChars : List Char := [' ', '\t', '\n', '\r', '\x0B', '\x0C']

/-- Python `str.strip()` (ASCII whitespace). -/
def pyStrip (s : List Char) : List Char :=
  ((s.dropWhile (· ∈ pyStripChars)).reverse.dropWhile (· ∈ pyStripChars)).reverse

/-- `news_scraper._article_hash`: MD5 hex digest of
`f"{title.strip()}|{link.strip()}"` encoded as UTF-8. -/
def articleHash (title link : String) : String :=
  md5Hex (utf8Bytes (pyStrip title.toList ++ '|' :: pyStrip link.toList))


/-! ## news_bot._split_message

The message text is modelled as a `List Char` (Python strings are sequences
of code points).  `splitOnNl` is Python `text.split("\n")`, `joinNl` is
`"\n".join`. -/

def MAX_MSG_LEN : Nat := 4096

/-- Python `text.split("\n")`. -/
def splitOnNl : List Char → List (List Char)
  | [] => [[]]
  | c :: rest =>
    match splitOnNl rest with
    | [] => [[]]
    | s :: ss => if c = '\n' then [] :: s :: ss else (c :: s) :: ss

/-- Python `"\n".join(lines)`. -/
def joinNl : List (List Char) → List Char
  | [] => []
  | [s] => s
  | s :: s2 :: ss => s ++ '\n' :: joinNl (s2 :: ss)

/-- One iteration of the `for line in text.split("\n")` loop in
`_split_message`: Python's `if current:` is the emptiness test. -/
def splitStep (maxLen : Nat) (acc : List (List Char) × List Char)
    (line : List Char) : List (List Char) × List Char :=
  let candidate := if acc.2 ≠ [] then acc.2 ++ '\n' :: line else line
  if candidate.length ≤ maxLen then (acc.1, candidate)
  else if acc.2 ≠ [] then (acc.1 ++ [acc.2], line) else (acc.1, line)

/-- The trailing `if current: chunks.append(current)` of `_split_message`. -/
def splitFinish (r : List (List Char) × List Char) : List (List Char) :=
  if r.2 ≠ [] then r.1 ++ [r.2] else r.1

/-- `news_bot._split_message` (the caller passes `max_len = MAX_MSG_LEN`). -/
def splitMessage (text : List Char) (maxLen : Nat) : List (List Char) :=
  if text.length ≤ maxLen then [text]
  else splitFinish ((splitOnNl text).foldl (splitStep maxLen) ([], []))

theorem splitOnNl_ne_nil (s : List Char) : splitOnNl s ≠ [] := by
  induction s with
  | nil => simp [splitOnNl]
  | cons c rest ih =>
    rcases h : splitOnNl rest with _ | ⟨hd, tl⟩
    · exact absurd h ih
    · simp only [splitOnNl, h]
      split <;> simp

theorem splitOnNl_cons_nl (rest : List Char) :
    splitOnNl ('\n' :: rest) = [] :: splitOnNl rest := by
  simp only [splitOnNl]
  rcases h : splitOnNl rest with _ | ⟨hd, tl⟩
  · exact absurd h (splitOnNl_ne_nil rest)
  · simp

theorem splitOnNl_cons_ne {c : Char} {rest s : List Char} {ss : List (List Char)}
    (hc : c ≠ '\n') (hr : splitOnNl rest = s :: ss) :
    splitOnNl (c :: rest) = (c :: s) :: ss := by
  simp only [splitOnNl, hr, if_neg hc]

theorem not_nl_splitOnNl {s : List Char} (h : '\n' ∉ s) : splitOnNl s = [s] := by
  induction s with
  | nil => rfl
  | cons c rest ih =>
    have hc : c ≠ '\n' := fun e => h (e ▸ List.mem_cons_self c rest)
    have hr : '\n' ∉ rest := fun m => h (List.mem_cons_of_mem _ m)
    exact splitOnNl_cons_ne hc (ih hr)

theorem nl_not_mem_splitOnNl {s l : List Char} (hl : l ∈ splitOnNl s) : '\n' ∉ l := by
  induction s generalizing l with
  | nil =>
    simp only [splitOnNl, List.mem_singleton] at hl
    subst hl; simp
  | cons c rest ih =>
    by_cases hc : c = '\n'
    · subst hc
      rw [splitOnNl_cons_nl] at hl
      rcases List.mem_cons.mp hl with h | h
      · subst h; simp
      · exact ih h
    · rcases h : splitOnNl rest with _ | ⟨hd, tl⟩
      · exact absurd h (splitOnNl_ne_nil rest)
      · rw [splitOnNl_cons_ne hc h] at hl
        rcases List.mem_cons.mp hl with h2 | h2
        · subst h2
          intro hm
          rcases List.mem_cons.mp hm with h3 | h3
          · exact hc h3.symm
          · exact ih (h ▸ List.mem_cons_self hd tl) h3
        · exact ih (h ▸ List.mem_cons_of_mem hd h2)

theorem joinNl_splitOnNl (s : List Char) : joinNl (splitOnNl s) = s := by
  induction s with
  | nil => rfl
  | cons c rest ih =>
    rcases h : splitOnNl rest with _ | ⟨hd, tl⟩
    · exact absurd h (splitOnNl_ne_nil rest)
    · rw [h] at ih
      by_cases hc : c = '\n'
      · subst hc
        rw [splitOnNl_cons_nl, h]
        show ([] : List Char) ++ '\n' :: joinNl (hd :: tl) = '\n' :: rest
        rw [List.nil_append, ih]
      · rw [splitOnNl_cons_ne hc h]
        cases tl with
        | nil =>
          show (c :: hd) = c :: rest
          simpa [joinNl] using congrArg (c :: ·) ih
        | cons t ts =>
          show (c :: hd) ++ '\n' :: joinNl (t :: ts) = c :: rest
          have : hd ++ '\n' :: joinNl (t :: ts) = rest := ih
          rw [List.cons_append, this]

theorem splitOnNl_append_nl {a b : List Char} (hb : '\n' ∉ b) :
    splitOnNl (a ++ '\n' :: b) = splitOnNl a ++ [b] := by
  induction a with
  | nil =>
    rw [List.nil_append, splitOnNl_cons_nl, not_nl_splitOnNl hb]
    rfl
  | cons c a' ih =>
    by_cases hc : c = '\n'
    · subst hc
      rw [List.cons_append, splitOnNl_cons_nl, splitOnNl_cons_nl, ih, List.cons_append]
    · rcases h : splitOnNl a' with _ | ⟨hd, tl⟩
      · exact absurd h (splitOnNl_ne_nil a')
      · have h2 : splitOnNl (a' ++ '\n' :: b) = hd :: (tl ++ [b]) := by
          rw [ih, h, List.cons_append]
        rw [List.cons_append, splitOnNl_cons_ne hc h2, splitOnNl_cons_ne hc h,
          List.cons_append]

theorem splitOnNl_nl_cons {a rest : List Char} (ha : '\n' ∉ a) :
    splitOnNl (a ++ '\n' :: rest) = a :: splitOnNl rest := by
  induction a with
  | nil => simpa using splitOnNl_cons_nl rest
  | cons c a' ih =>
    have hc : c ≠ '\n' := fun e => ha (e ▸ List.mem_cons_self c a')
    have ha' : '\n' ∉ a' := fun m => ha (List.mem_cons_of_mem _ m)
    rcases h : splitOnNl rest with _ | ⟨hd, tl⟩
    · exact absurd h (splitOnNl_ne_nil rest)
    · have h2 : splitOnNl (a' ++ '\n' :: rest) = a' :: hd :: tl := by rw [ih ha', h]
      rw [List.cons_append, splitOnNl_cons_ne hc h2]

theorem joinNl_append {xs ys : List (List Char)} (hx : xs ≠ []) (hy : ys ≠ []) :
    joinNl (xs ++ ys) = joinNl xs ++ '\n' :: joinNl ys := by
  induction xs with
  | nil => exact absurd rfl hx
  | cons x xs' ih =>
    cases xs' with
    | nil =>
      cases ys with
      | nil => exact absurd rfl hy
      | cons y ys' => rfl
    | cons x2 xs'' =>
      have : joinNl ((x2 :: xs'') ++ ys) = joinNl (x2 :: xs'') ++ '\n' :: joinNl ys :=
        ih (by simp)
      show x ++ '\n' :: joinNl ((x2 :: xs'') ++ ys) = _
      rw [this]
      show _ = (x ++ '\n' :: joinNl (x2 :: xs'')) ++ '\n' :: joinNl ys
      simp

theorem flatMap_splitOnNl_ne_nil {cs : List (List Char)} (h : cs ≠ []) :
    cs.flatMap splitOnNl ≠ [] := by
  cases cs with
  | nil => exact absurd rfl h
  | cons c cs' =>
    simp only [List.flatMap_cons, ne_eq, List.append_eq_nil]
    intro ⟨h1, _⟩
    exact splitOnNl_ne_nil c h1

theorem joinNl_flatMap {cs : List (List Char)} (h : cs ≠ []) :
    joinNl (cs.flatMap splitOnNl) = joinNl cs := by
  induction cs with
  | nil => exact absurd rfl h
  | cons c cs' ih =>
    cases cs' with
    | nil => simp [joinNl, joinNl_splitOnNl]
    | cons c2 cs'' =>
      rw [List.flatMap_cons,
        joinNl_append (splitOnNl_ne_nil c) (flatMap_splitOnNl_ne_nil (by simp)),
        joinNl_splitOnNl, ih (by simp)]
      rfl

/-- Invariant of the accumulator loop in `_split_message`: all finished
chunks are within the cap, the running chunk is within the cap, the lines of
the produced chunks are exactly the already-consumed input lines in order,
and the running chunk is nonempty once anything was consumed. -/
def foldInv (maxLen : Nat) (chunks : List (List Char)) (cur : List Char)
    (lines : List (List Char)) (r : List (List Char) × List Char) : Prop :=
  (∀ c ∈ r.1, c.length ≤ maxLen) ∧ r.2.length ≤ maxLen ∧
  r.1.flatMap splitOnNl ++ (if r.2 = [] then [] else splitOnNl r.2) =
    (chunks.flatMap splitOnNl ++ (if cur = [] then [] else splitOnNl cur)) ++ lines ∧
  ((cur ≠ [] ∨ lines ≠ []) → r.2 ≠ [])

theorem splitFold_spec (maxLen : Nat) :
    ∀ lines : List (List Char),
      (∀ l ∈ lines, (l ≠ [] ∧ l.length ≤ maxLen) ∧ '\n' ∉ l) →
      ∀ chunks cur, (∀ c ∈ chunks, c.length ≤ maxLen) → cur.length ≤ maxLen →
        foldInv maxLen chunks cur lines
          (lines.foldl (splitStep maxLen) (chunks, cur)) := by
  intro lines
  induction lines with
  | nil =>
    intro _ chunks cur hc hcur
    refine ⟨hc, hcur, by simp, ?_⟩
    rintro (h | h)
    · exact h
    · exact absurd rfl h
  | cons l lines' ih =>
    intro hl chunks cur hc hcur
    have hlg := (hl l (List.mem_cons_self l lines')).1
    have hlnl := (hl l (List.mem_cons_self l lines')).2
    have hl' : ∀ x ∈ lines', (x ≠ [] ∧ x.length ≤ maxLen) ∧ '\n' ∉ x :=
      fun x hx => hl x (List.mem_cons_of_mem l hx)
    rw [List.foldl_cons]
    by_cases hcure : cur = []
    · -- current empty: candidate is the line itself, which fits
      have hstep : splitStep maxLen (chunks, cur) l = (chunks, l) := by
        simp only [splitStep, hcure, ne_eq, not_true_eq_false, if_false, ite_false,
          not_not]
        simp [hlg.2]
      rw [hstep]
      obtain ⟨i1, i2, i3, i4⟩ := ih hl' chunks l hc hlg.2
      refine ⟨i1, i2, ?_, fun _ => i4 (Or.inl hlg.1)⟩
      rw [i3, hcure, if_neg hlg.1, not_nl_splitOnNl hlnl]
      simp
    · by_cases hfit : (cur ++ '\n' :: l).length ≤ maxLen
      · -- line appended to the current chunk
        have hstep : splitStep maxLen (chunks, cur) l = (chunks, cur ++ '\n' :: l) := by
          simp only [splitStep, ne_eq, hcure, not_false_eq_true, if_true, ite_true, hfit]
        rw [hstep]
        obtain ⟨i1, i2, i3, i4⟩ := ih hl' chunks (cur ++ '\n' :: l) hc hfit
        refine ⟨i1, i2, ?_, fun _ => i4 (Or.inl (by simp))⟩
        rw [i3, if_neg (by simp), if_neg hcure, splitOnNl_append_nl hlnl]
        simp
      · -- current chunk flushed, line starts the next chunk
        have hstep : splitStep maxLen (chunks, cur) l = (chunks ++ [cur], l) := by
          simp only [splitStep, ne_eq, hcure, not_false_eq_true, if_true, ite_true, hfit]
          simp [hcure]
        rw [hstep]
        have hc' : ∀ c ∈ chunks ++ [cur], c.length ≤ maxLen := by
          intro c hcm
          rcases List.mem_append.mp hcm with h | h
          · exact hc c h
          · rw [List.mem_singleton.mp h]; exact hcur
        obtain ⟨i1, i2, i3, i4⟩ := ih hl' (chunks ++ [cur]) l hc' hlg.2
        refine ⟨i1, i2, ?_, fun _ => i4 (Or.inl hlg.1)⟩
        rw [i3, if_neg hlg.1, if_neg hcure, not_nl_splitOnNl hlnl]
        simp

/-- C1 (amended): for every input text all of whose lines are nonempty and
of length at most 4096, `_split_message` returns chunks each of length
≤ 4096, every chunk boundary falls on a line boundary of the input (the
lines of the chunks, in order, are exactly the lines of the input), and
joining the chunks with the newline separator reproduces the original text
exactly. -/
theorem splitMessage_spec (text : List Char)
    (h : ∀ l ∈ splitOnNl text, l ≠ [] ∧ l.length ≤ MAX_MSG_LEN) :
    (∀ c ∈ splitMessage text MAX_MSG_LEN, c.length ≤ MAX_MSG_LEN) ∧
    (splitMessage text MAX_MSG_LEN).flatMap splitOnNl = splitOnNl text ∧
    joinNl (splitMessage text MAX_MSG_LEN) = text := by
  by_cases hlen : text.length ≤ MAX_MSG_LEN
  · rw [splitMessage, if_pos hlen]
    refine ⟨?_, by simp, rfl⟩
    intro c hcm
    rw [List.mem_singleton.mp hcm]
    exact hlen
  · have hl : ∀ l ∈ splitOnNl text, (l ≠ [] ∧ l.length ≤ MAX_MSG_LEN) ∧ '\n' ∉ l :=
      fun l hm => ⟨h l hm, nl_not_mem_splitOnNl hm⟩
    obtain ⟨i1, i2, i3, i4⟩ :=
      splitFold_spec MAX_MSG_LEN (splitOnNl text) hl [] [] (by simp) (by simp)
    have hr2 : ((splitOnNl text).foldl (splitStep MAX_MSG_LEN) ([], [])).2 ≠ [] :=
      i4 (Or.inr (splitOnNl_ne_nil text))
    have hsm : splitMessage text MAX_MSG_LEN =
        ((splitOnNl text).foldl (splitStep MAX_MSG_LEN) ([], [])).1 ++
          [((splitOnNl text).foldl (splitStep MAX_MSG_LEN) ([], [])).2] := by
      rw [splitMessage, if_neg hlen, splitFinish, if_pos hr2]
    rw [if_neg hr2] at i3
    simp only [List.flatMap_nil, List.nil_append, ite_self] at i3
    have hflat : (splitMessage text MAX_MSG_LEN).flatMap splitOnNl = splitOnNl text := by
      rw [hsm, List.flatMap_append]
      simpa using i3
    refine ⟨?_, hflat, ?_⟩
    · intro c hcm
      rw [hsm] at hcm
      rcases List.mem_append.mp hcm with hm | hm
      · exact i1 c hm
      · rw [List.mem_singleton.mp hm]; exact i2
    · have hne : splitMessage text MAX_MSG_LEN ≠ [] := by
        rw [hsm]; simp
      calc joinNl (splitMessage text MAX_MSG_LEN)
          = joinNl ((splitMessage text MAX_MSG_LEN).flatMap splitOnNl) :=
            (joinNl_flatMap hne).symm
        _ = joinNl (splitOnNl text) := by rw [hflat]
        _ = text := joinNl_splitOnNl text

theorem replicate_char_ne_nil {n : Nat} {c : Char} (h : 0 < n) :
    List.replicate n c ≠ [] := by
  rw [ne_eq, List.replicate_eq_nil_iff]
  omega

/-- A single line of 4097 `'a'` characters: longer than the cap, no newline. -/
def c1BadText : List Char := List.replicate 4097 'a'

/-- C1 (counterexample): the claim fails as universally stated — on an input
consisting of one 4097-character line, `_split_message` returns that line as
a single chunk of length 4097 > 4096. -/
theorem splitMessage_counterexample :
    splitMessage c1BadText MAX_MSG_LEN = [c1BadText] ∧
    MAX_MSG_LEN < c1BadText.length := by
  have hnl : '\n' ∉ c1BadText := by
    simp only [c1BadText, List.mem_replicate]
    intro h
    exact absurd h.2 (by decide)
  have hlen : c1BadText.length = 4097 := by rw [c1BadText, List.length_replicate]
  have hne : c1BadText ≠ [] := replicate_char_ne_nil (by decide)
  constructor
  · have hstep : splitStep MAX_MSG_LEN ([], []) c1BadText = ([], c1BadText) := by
      simp only [splitStep, ne_eq, not_true_eq_false, if_false, ite_false, not_not,
        hlen]
      simp [MAX_MSG_LEN]
    rw [splitMessage, if_neg (by rw [hlen]; decide), not_nl_splitOnNl hnl,
      List.foldl_cons, hstep, List.foldl_nil, splitFinish, if_pos hne]
    rfl
  · rw [hlen]; decide

/-- A concrete 9000-character message with three lines of lengths
4096, 4096 and 806. -/
def c1Text9000 : List Char :=
  List.replicate 4096 'a' ++ '\n' ::
    (List.replicate 4096 'b' ++ '\n' :: List.replicate 806 'c')

theorem c1Text9000_lines :
    splitOnNl c1Text9000 =
      [List.replicate 4096 'a', List.replicate 4096 'b', List.replicate 806 'c'] := by
  have ha : '\n' ∉ List.replicate 4096 'a' := by
    simp only [List.mem_replicate]; intro h; exact absurd h.2 (by decide)
  have hb : '\n' ∉ List.replicate 4096 'b' := by
    simp only [List.mem_replicate]; intro h; exact absurd h.2 (by decide)
  have hc : '\n' ∉ List.replicate 806 'c' := by
    simp only [List.mem_replicate]; intro h; exact absurd h.2 (by decide)
  rw [c1Text9000, splitOnNl_nl_cons ha, splitOnNl_nl_cons hb, not_nl_splitOnNl hc]

/-- C1 (witness): the amended theorem applied to a concrete 9000-character
message; its lines are nonempty and within the cap, and the conclusion
holds for it. -/
theorem splitMessage_spec_witness :
    c1Text9000.length = 9000 ∧
    (∀ l ∈ splitOnNl c1Text9000, l ≠ [] ∧ l.length ≤ MAX_MSG_LEN) ∧
    ((∀ c ∈ splitMessage c1Text9000 MAX_MSG_LEN, c.length ≤ MAX_MSG_LEN) ∧
      (splitMessage c1Text9000 MAX_MSG_LEN).flatMap splitOnNl = splitOnNl c1Text9000 ∧
      joinNl (splitMessage c1Text9000 MAX_MSG_LEN) = c1Text9000) := by
  have hlines : ∀ l ∈ splitOnNl c1Text9000, l ≠ [] ∧ l.length ≤ MAX_MSG_LEN := by
    rw [c1Text9000_lines]
    intro l hl
    rcases List.mem_cons.mp hl with h | hl
    · subst h
      exact ⟨replicate_char_ne_nil (by decide),
        by rw [List.length_replicate]; decide⟩
    rcases List.mem_cons.mp hl with h | hl
    · subst h
      exact ⟨replicate_char_ne_nil (by decide),
        by rw [List.length_replicate]; decide⟩
    rcases List.mem_cons.mp hl with h | hl
    · subst h
      exact ⟨replicate_char_ne_nil (by decide),
        by rw [List.length_replicate]; decide⟩
    · exact absurd hl (List.not_mem_nil l)
  refine ⟨?_, hlines, splitMessage_spec c1Text9000 hlines⟩
  rw [c1Text9000]
  simp only [List.length_append, List.length_cons, List.length_replicate]

/-! ## weather_scheduler: job state, weather_job, news_job

`scheduler_state.json` is modelled as `SchedState`.  A job's delivery
attempts are serialized: the retry thread of `weather_job`/`news_job` is
modelled as running after the first attempt with no interleaved writers.
The outcome of each `send_weather()` call is supplied by an environment
function `outs`; `send_news` is modelled through Python call binding (see
`callSendNews`), since `def send_news():` declares no parameters. -/

structure SchedState where
  jobs : String → Option String
  heartbeat : Option String

/-- `_mark_done(job_key)`: record today's date for the key and refresh the
heartbeat timestamp. -/
def markDone (key today hb : String) (s : SchedState) : SchedState :=
  ⟨fun k => if k = key then some today else s.jobs k, some hb⟩

/-- `_was_done_today(job_key)`. -/
def wasDoneToday (key today : String) (s : SchedState) : Bool :=
  s.jobs key == some today

/-- `RETRY_DELAYS_MIN = [5, 10]`. -/
def RETRY_DELAYS_MIN : List Nat := [5, 10]

/-- Outcome of one `send_weather()` call: a result with `ok` true, a result
without `ok` (or falsy), or a raised exception. -/
inductive WeatherOutcome
  | success
  | failure
  | exc
deriving DecidableEq

/-- One delivery attempt of the weather job body: on `ok` mark done. -/
def weatherAttempt (today hb : String) (o : WeatherOutcome) (s : SchedState) :
    SchedState × Bool :=
  match o with
  | .success => (markDone "weather" today hb s, true)
  | _ => (s, false)

/-- The `_retry` loop of `weather_job`: one pass per entry of
`RETRY_DELAYS_MIN`, re-checking `_was_done_today` before each attempt.  The
second component counts `send_weather()` invocations. -/
def weatherRetry (today hb : String) (outs : Nat → WeatherOutcome) :
    List Nat → Nat → SchedState → SchedState × Nat
  | [], _, s => (s, 0)
  | _ :: ds, i, s =>
    if wasDoneToday "weather" today s then (s, 0)
    else
      match weatherAttempt today hb (outs i) s with
      | (s', true) => (s', 1)
      | (s', false) =>
        match weatherRetry today hb outs ds (i + 1) s' with
        | (s'', n) => (s'', n + 1)

/-- `weather_scheduler.weather_job`, retry thread serialized; returns the
final state and the number of delivery attempts performed. -/
def weatherJob (today hb : String) (outs : Nat → WeatherOutcome) (s : SchedState) :
    SchedState × Nat :=
  if wasDoneToday "weather" today s then (s, 0)
  else
    match weatherAttempt today hb (outs 0) s with
    | (s0, true) => (s0, 1)
    | (s0, false) =>
      match weatherRetry today hb outs RETRY_DELAYS_MIN 1 s0 with
      | (s1, n) => (s1, n + 1)

/-- The dict returned by the body of `news_bot.send_news`. -/
structure NewsResult where
  ok : Bool
  total : Nat
  message : String
deriving DecidableEq

inductive PyErr
  | typeError
deriving DecidableEq

/-- Python call binding for `send_news`: the function is declared as
`def send_news():` — zero parameters — so a call with any keyword argument
raises `TypeError` before the body runs; a call with no arguments runs the
body (whose result is supplied by the environment). -/
def callSendNews (kwargs : List String) (body : NewsResult) : Except PyErr NewsResult :=
  if kwargs = [] then .ok body else .error .typeError

/-- The keyword argument used at every `send_news` call site in `news_job`. -/
def timeLabelKw : String := "time_label"

/-- One delivery attempt of the news job: mark done when the call returned a
result with `ok` or with `total == 0`; a raised exception is caught. -/
def newsAttempt (key today hb : String) (call : Except PyErr NewsResult)
    (s : SchedState) : SchedState × Bool :=
  match call with
  | .ok r => if r.ok || r.total == 0 then (markDone key today hb s, true) else (s, false)
  | .error _ => (s, false)

/-- The `_retry` loop of `news_job`; every attempt calls
`send_news(time_label=...)`. -/
def newsRetry (key today hb : String) (bodies : Nat → NewsResult) :
    List Nat → Nat → SchedState → SchedState × Nat
  | [], _, s => (s, 0)
  | _ :: ds, i, s =>
    if wasDoneToday key today s then (s, 0)
    else
      match newsAttempt key today hb (callSendNews [timeLabelKw] (bodies i)) s with
      | (s', true) => (s', 1)
      | (s', false) =>
        match newsRetry key today hb bodies ds (i + 1) s' with
        | (s'', n) => (s'', n + 1)

/-- `period_override if period_override else ("am" if now.hour < 12 else "pm")`. -/
def newsPeriod (override : Option String) (hour : Nat) : String :=
  override.getD (if hour < 12 then "am" else "pm")

/-- `weather_scheduler.news_job`, retry thread serialized; returns the final
state and the number of `send_news` call attempts performed. -/
def newsJob (override : Option String) (hour : Nat) (today hb : String)
    (bodies : Nat → NewsResult) (s : SchedState) : SchedState × Nat :=
  let key := "news_" ++ newsPeriod override hour
  if wasDoneToday key today s then (s, 0)
  else
    match newsAttempt key today hb (callSendNews [timeLabelKw] (bodies 0)) s with
    | (s0, true) => (s0, 1)
    | (s0, false) =>
      match newsRetry key today hb bodies RETRY_DELAYS_MIN 1 s0 with
      | (s1, n) => (s1, n + 1)

/-- `bot_commands._cmd_news_now`: calls `send_news()` with no arguments and
never consults or mutates the scheduler state (no `_was_done_today` check). -/
def cmdNewsNow (body : NewsResult) (s : SchedState) :
    SchedState × Except PyErr NewsResult :=
  (s, callSendNews [] body)

/-- C2: every scheduled-path attempt in `news_job` calls `send_news` with
the `time_label` keyword argument and therefore raises `TypeError` (conjunct
1); consequently, for every environment, `news_job` performs 3 failing
attempts when the key is not yet done today (0 when it is), leaves the
state unchanged, and never records `last_success_date` (conjunct 2); the
manual `/뉴스` path calls `send_news()` with no arguments, which binds and
runs the body (conjunct 3). -/
theorem newsJob_typeError :
    (∀ r : NewsResult, callSendNews [timeLabelKw] r = .error .typeError) ∧
    (∀ (override : Option String) (hour : Nat) (today hb : String)
        (bodies : Nat → NewsResult) (s : SchedState),
      newsJob override hour today hb bodies s =
        (s, if wasDoneToday ("news_" ++ newsPeriod override hour) today s
            then 0 else 3)) ∧
    (∀ r : NewsResult, callSendNews [] r = .ok r) := by
  refine ⟨fun r => rfl, ?_, fun r => rfl⟩
  intro override hour today hb bodies s
  by_cases h : wasDoneToday ("news_" ++ newsPeriod override hour) today s
  · simp [newsJob, h]
  · simp [newsJob, newsRetry, newsAttempt, callSendNews, RETRY_DELAYS_MIN, h]

/-- C4: if the weather job is not yet done today and its first scheduled
fire succeeds, that fire performs exactly one delivery attempt and records
today's date; a second scheduled fire on the same date performs zero
delivery attempts and leaves the state unchanged — one attempt in total. -/
theorem weatherJob_idempotent (today hb hb2 : String)
    (outs outs2 : Nat → WeatherOutcome) (s : SchedState)
    (h1 : wasDoneToday "weather" today s = false) (h2 : outs 0 = .success) :
    weatherJob today hb outs s = (markDone "weather" today hb s, 1) ∧
    weatherJob today hb2 outs2 (markDone "weather" today hb s) =
      (markDone "weather" today hb s, 0) := by
  constructor
  · simp [weatherJob, h1, weatherAttempt, h2]
  · have hdone : wasDoneToday "weather" today (markDone "weather" today hb s) = true := by
      simp [wasDoneToday, markDone]
    simp [weatherJob, hdone]

def schedState0 : SchedState := ⟨fun _ => none, none⟩

/-- C4 (witness): the idempotency theorem applied to the empty state with an
always-succeeding environment. -/
theorem weatherJob_idempotent_witness :
    (wasDoneToday "weather" "2026-10-12" schedState0 = false ∧
      (fun _ : Nat => WeatherOutcome.success) 0 = WeatherOutcome.success) ∧
    (weatherJob "2026-10-12" "t1" (fun _ => .success) schedState0 =
        (markDone "weather" "2026-10-12" "t1" schedState0, 1) ∧
      weatherJob "2026-10-12" "t2" (fun _ => .failure)
          (markDone "weather" "2026-10-12" "t1" schedState0) =
        (markDone "weather" "2026-10-12" "t1" schedState0, 0)) :=
  ⟨⟨rfl, rfl⟩,
    weatherJob_idempotent "2026-10-12" "t1" "t2" (fun _ => .success)
      (fun _ => .failure) schedState0 rfl rfl⟩

/-- C6: if the weather job is not yet done today and the first attempt and
both retries all fail, the job performs exactly 3 delivery attempts, leaves
the state unchanged (no `last_success_date` written) and makes no further
automatic attempt; and the manually triggered `/뉴스` handler performs its
delivery attempt unconditionally — it never consults the daily lock and its
`send_news()` call binds and runs for every state. -/
theorem weatherJob_exhaustion (today hb : String) (outs : Nat → WeatherOutcome)
    (s : SchedState) (h0 : wasDoneToday "weather" today s = false)
    (h1 : outs 0 ≠ .success) (h2 : outs 1 ≠ .success) (h3 : outs 2 ≠ .success) :
    weatherJob today hb outs s = (s, 3) ∧
    (∀ (body : NewsResult) (s2 : SchedState), cmdNewsNow body s2 = (s2, .ok body)) := by
  have e0 : weatherAttempt today hb (outs 0) s = (s, false) := by
    cases ho : outs 0 with
    | success => exact absurd ho h1
    | failure => rfl
    | exc => rfl
  have e1 : weatherAttempt today hb (outs 1) s = (s, false) := by
    cases ho : outs 1 with
    | success => exact absurd ho h2
    | failure => rfl
    | exc => rfl
  have e2 : weatherAttempt today hb (outs 2) s = (s, false) := by
    cases ho : outs 2 with
    | success => exact absurd ho h3
    | failure => rfl
    | exc => rfl
  refine ⟨?_, fun body s2 => rfl⟩
  simp [weatherJob, h0, e0, weatherRetry, RETRY_DELAYS_MIN, e1, e2]

/-- C6 (witness): the exhaustion theorem applied to the empty state with an
always-failing environment. -/
theorem weatherJob_exhaustion_witness :
    (wasDoneToday "weather" "2026-10-12" schedState0 = false ∧
      (fun _ : Nat => WeatherOutcome.failure) 0 ≠ WeatherOutcome.success) ∧
    (weatherJob "2026-10-12" "t1" (fun _ => .failure) schedState0 = (schedState0, 3) ∧
      (∀ (body : NewsResult) (s2 : SchedState),
        cmdNewsNow body s2 = (s2, .ok body))) :=
  ⟨⟨rfl, by decide⟩,
    weatherJob_exhaustion "2026-10-12" "t1" (fun _ => .failure) schedState0 rfl
      (by decide) (by decide) (by decide)⟩

/-! ## bot_commands.start_command_listener: conflict backoff

One iteration of the `while True` polling loop, with the result of
`_get_updates` supplied by the environment (`None` on 409 Conflict, a list
of updates otherwise). -/

inductive PollResult
  | conflict
  | polled (updates : List Nat)
deriving DecidableEq

/-- `for update in updates: offset = update["update_id"] + 1`. -/
def advanceOffset (off : Nat) (us : List Nat) : Nat :=
  us.foldl (fun _ u => u + 1) off

structure ListenerState where
  off : Nat
  cnt : Nat
deriving DecidableEq

/-- One iteration of the listener loop: on conflict, increment the counter
and sleep `min(counter * 5, 30)` seconds (emitted as the second component);
on a successful poll, reset the counter to 0 and advance the offset. -/
def listenerStep (st : ListenerState) (p : PollResult) : ListenerState × Option Nat :=
  match p with
  | .conflict => (⟨st.off, st.cnt + 1⟩, some (min ((st.cnt + 1) * 5) 30))
  | .polled us => (⟨advanceOffset st.off us, 0⟩, none)

/-- Run the listener loop over a sequence of poll results, collecting the
emitted sleep durations in order. -/
def runListener : ListenerState → List PollResult → ListenerState × List Nat
  | st, [] => (st, [])
  | st, p :: ps =>
    match listenerStep st p with
    | (st', some d) =>
      match runListener st' ps with
      | (st'', ds) => (st'', d :: ds)
    | (st', none) => runListener st' ps

theorem runListener_conflicts (k : Nat) :
    ∀ off c, runListener ⟨off, c⟩ (List.replicate k .conflict) =
      (⟨off, c + k⟩, (List.range k).map (fun i => min ((c + i + 1) * 5) 30)) := by
  induction k with
  | zero => intro off c; simp [runListener]
  | succ k ih =>
    intro off c
    rw [List.replicate_succ]
    show (match runListener ⟨off, c + 1⟩ (List.replicate k .conflict) with
      | (st'', ds) => (st'', min ((c + 1) * 5) 30 :: ds)) = _
    rw [ih off (c + 1)]
    have harith : c + 1 + k = c + (k + 1) := by omega
    have hmap : (List.range k).map (fun i => min ((c + 1 + i + 1) * 5) 30) =
        (List.range k).map (fun i => min ((c + (i + 1) + 1) * 5) 30) :=
      List.map_congr_left fun i _ => by
        have : c + 1 + i + 1 = c + (i + 1) + 1 := by omega
        rw [this]
    have hrange : (List.range (k + 1)).map (fun i => min ((c + i + 1) * 5) 30) =
        min ((c + 1) * 5) 30 ::
          (List.range k).map (fun i => min ((c + (i + 1) + 1) * 5) 30) := by
      rw [List.range_succ_eq_map, List.map_cons, List.map_map]
      rfl
    rw [hmap, harith, hrange]

/-- C8: in the command-listener loop, a run of `k` consecutive Conflict
responses starting from a reset counter produces the sleep durations
`min(1*5, 30), min(2*5, 30), …, min(k*5, 30)` in order (conjunct 1); in
particular three consecutive conflicts sleep 5s, 10s, 15s (conjunct 2); and
any successful (non-conflict) poll response resets the conflict counter to
0 (conjunct 3). -/
theorem listener_conflict_backoff :
    (∀ off k, (runListener ⟨off, 0⟩ (List.replicate k .conflict)).2 =
        (List.range k).map (fun i => min ((i + 1) * 5) 30)) ∧
    (∀ off, (runListener ⟨off, 0⟩ [.conflict, .conflict, .conflict]).2 = [5, 10, 15]) ∧
    (∀ st us, (listenerStep st (.polled us)).1.cnt = 0) := by
  have h1 : ∀ off k, (runListener ⟨off, 0⟩ (List.replicate k .conflict)).2 =
      (List.range k).map (fun i => min ((i + 1) * 5) 30) := by
    intro off k
    rw [runListener_conflicts k off 0]
    exact List.map_congr_left fun i _ => by rw [Nat.zero_add]
  refine ⟨h1, ?_, fun st us => rfl⟩
  intro off
  have := h1 off 3
  rw [show List.replicate 3 PollResult.conflict =
    [.conflict, .conflict, .conflict] from rfl] at this
  rw [this]
  rfl

/-! ## news_scraper: dedup store, aggregation, fallback chain, fetch retries -/

structure Article where
  title : String
  link : String
  press : String
  summary : String
deriving DecidableEq

/-- `_article_hash(article["title"], article["link"])`. -/
def articleHashA (a : Article) : String := articleHash a.title a.link

/-- A Python `set` of strings, modelled by its canonical enumeration
(deduplicated, sorted).  Set iteration order is hash-based and carries no
insertion-order information; the canonical form represents exactly the
set's contents. -/
def pySet (l : List String) : List String := List.insertionSort (· ≤ ·) l.dedup

/-- `news_scraper._save_sent_hashes`: `list(hashes)[-2000:]` — the last 2000
elements of the set's enumeration. -/
def saveSentHashes (hashes : List String) : List String :=
  ((pySet hashes).reverse.take 2000).reverse

/-- The per-keyword dedup loop of `scrape_all_keywords`: accept a candidate
whose fingerprint is neither in the loaded store (`sent`) nor in the
accepted-set of this run (`newH`); stop once `count_per` articles are
accepted. -/
def filterLoop (sent : List String) (countPer : Nat) :
    List Article → List Article → List String → List Article × List String
  | [], filtered, newH => (filtered, newH)
  | a :: rest, filtered, newH =>
    let h := articleHashA a
    let acc := if h ∉ sent ∧ h ∉ newH
      then (filtered ++ [a], h :: newH) else (filtered, newH)
    if countPer ≤ acc.1.length then acc
    else filterLoop sent countPer rest acc.1 acc.2

/-- The keyword loop of `scrape_all_keywords`: each entry pairs a keyword
with the raw articles `scrape_naver_news` returned for it; the accepted-set
`newH` is threaded through all keywords. -/
def scrapeAllLoop (countPer : Nat) (sent : List String) :
    List (String × List Article) → List String →
      List (String × List Article) × List String
  | [], newH => ([], newH)
  | (kw, raws) :: rest, newH =>
    match filterLoop sent countPer raws [] newH with
    | (filtered, newH') =>
      match scrapeAllLoop countPer sent rest newH' with
      | (acc, newH'') => ((kw, filtered) :: acc, newH'')

/-- `news_scraper.scrape_all_keywords`: returns the per-keyword results and
the persisted dedup store (`sent_hashes.update(new_hashes)` followed by
`_save_sent_hashes`). -/
def scrapeAllKeywords (raws : List (String × List Article)) (countPer : Nat)
    (sent : List String) : List (String × List Article) × List String :=
  ((scrapeAllLoop countPer sent raws []).1,
    saveSentHashes (sent ++ (scrapeAllLoop countPer sent raws []).2))

/-- The fingerprints of all emitted articles, across all keywords, in order. -/
def resultsHashes (rs : List (String × List Article)) : List String :=
  rs.flatMap (fun kv => kv.2.map articleHashA)

/-- `_AVIAN_FLU_KEYWORDS` from news_scraper.py. -/
def AVIAN_FLU_KEYWORDS : List String :=
  ["조류인플루엔자", "조류독감", "고병원성", "AI 방역", "AI 발생",
   "AI 확산", "살처분", "가금류", "닭·오리", "AI 의심",
   "AI 확진", "조류 인플루엔자", "H5N1", "H5N6", "H5N8",
   "AI 양성", "철새", "AI 역학", "구제역"]

/-- Python `str.lower()` (ASCII range; the Korean text is unaffected). -/
def pyLower (s : List Char) : List Char := s.map Char.toLower

/-- `news_scraper._is_avian_flu`. -/
def isAvianFlu (a : Article) : Bool :=
  let text := pyLower ((a.title ++ " " ++ a.summary).toList)
  AVIAN_FLU_KEYWORDS.any (fun kw => decide (kw.toList <:+: text))

/-- `keyword.lower().replace(" ", "")`. -/
def normalizeKw (k : String) : String :=
  String.mk ((pyLower k.toList).filter (· ≠ ' '))

/-- The `ai_keywords` set in `scrape_naver_news`. -/
def aiKeywords : List String := ["ai", "인공지능", "생성ai", "생성형ai", "ai반도체"]

/-- The extraction fallback chain of `scrape_naver_news`: strategy outputs
`r1, r2, r3` are what `_parse_sds`, `_parse_legacy`, `_parse_generic` would
return on the fetched document (each is a pure function of the document).
The second component records, in order, which strategies were invoked. -/
def fallbackChain (r1 r2 r3 : List Article) : List Article × List Nat :=
  if r1 ≠ [] then (r1, [1])
  else if r2 ≠ [] then (r2, [1, 2])
  else (r3, [1, 2, 3])

/-- The tail of `scrape_naver_news` after a successful fetch: fallback
chain, then the avian-flu post-filter for AI keywords, then `[:count]`. -/
def scrapeNaverNewsCore (keyword : String) (count : Nat) (r1 r2 r3 : List Article) :
    List Article × List Nat :=
  let c := fallbackChain r1 r2 r3
  let arts := if normalizeKw keyword ∈ aiKeywords
    then c.1.filter (fun a => !isAvianFlu a) else c.1
  (arts.take count, c.2)

/-- Outcome of one `requests.get` attempt in `scrape_naver_news`: a 2xx
response, an HTTP error status (the response object is assigned before
`raise_for_status` raises), or a connection-level failure (no response
object assigned). -/
inductive FetchOutcome
  | success
  | httpError (status : Nat)
  | connError
deriving DecidableEq

/-- The `for attempt in range(3)` fetch loop of `scrape_naver_news`.
`resp` is the last assigned response status (`None` initially); `u i` is
the value `random.uniform(3.0, 6.0)` drawn before the retry that follows
attempt `i`.  Returns whether a document was obtained, and the emitted
backoff sleeps in order. -/
def fetchLoop (outs : Nat → FetchOutcome) (u : Nat → ℚ) :
    List Nat → Option Nat → Bool × List ℚ
  | [], _ => (false, [])
  | i :: rest, resp =>
    match outs i with
    | .success => (true, [])
    | .httpError st =>
      if st = 403 ∧ i < 2 then
        ((fetchLoop outs u rest (some st)).1, u i :: (fetchLoop outs u rest (some st)).2)
      else (false, [])
    | .connError =>
      if resp = some 403 ∧ i < 2 then
        ((fetchLoop outs u rest resp).1, u i :: (fetchLoop outs u rest resp).2)
      else (false, [])

def fetchNews (outs : Nat → FetchOutcome) (u : Nat → ℚ) : Bool × List ℚ :=
  fetchLoop outs u [0, 1, 2] none

/-- `scrape_naver_news` including the fetch: on fetch failure the keyword
yields the empty list (a normal return, not an exception). -/
def scrapeNaverNewsFetch (outs : Nat → FetchOutcome) (u : Nat → ℚ)
    (kw : String) (count : Nat) (r1 r2 r3 : List Article) : List Article × List ℚ :=
  if (fetchNews outs u).1
  then ((scrapeNaverNewsCore kw count r1 r2 r3).1, (fetchNews outs u).2)
  else ([], (fetchNews outs u).2)

theorem pySet_perm {l1 l2 : List String} (h : l1.Perm l2) : pySet l1 = pySet l2 :=
  List.eq_of_perm_of_sorted
    ((List.perm_insertionSort _ _).trans (h.dedup.trans (List.perm_insertionSort _ _).symm))
    (List.sorted_insertionSort _ _) (List.sorted_insertionSort _ _)

/-- C3 (code-bug evidence): the persisted dedup store is a function of the
*set* of fingerprints only — any two insertion histories with the same
elements persist the identical store — so the store cannot preserve
insertion order nor evict the oldest-inserted entries, the age information
having been destroyed by `set()`; the size cap of 2000 does hold. -/
theorem saveSentHashes_order_free (l1 l2 : List String) (h : l1.Perm l2) :
    saveSentHashes l1 = saveSentHashes l2 ∧ (saveSentHashes l1).length ≤ 2000 := by
  constructor
  · rw [saveSentHashes, saveSentHashes, pySet_perm h]
  · rw [saveSentHashes, List.length_reverse, List.length_take]
    omega

/-- C3 (witness): two insertion histories in opposite order persist the
same store. -/
theorem saveSentHashes_order_free_witness :
    (["b", "a"] : List String).Perm ["a", "b"] ∧
    (saveSentHashes ["b", "a"] = saveSentHashes ["a", "b"] ∧
      (saveSentHashes ["b", "a"]).length ≤ 2000) :=
  ⟨List.Perm.swap "a" "b" [],
    saveSentHashes_order_free ["b", "a"] ["a", "b"] (List.Perm.swap "a" "b" [])⟩

theorem filterLoop_spec (sent : List String) (countPer : Nat) :
    ∀ (raws filtered : List Article) (newH : List String),
      (∀ a ∈ filtered, articleHashA a ∈ newH) →
      (filtered.map articleHashA).Nodup →
      (∀ a ∈ (filterLoop sent countPer raws filtered newH).1,
          a ∈ filtered ∨ (articleHashA a ∉ sent ∧ articleHashA a ∉ newH)) ∧
      (∀ a ∈ (filterLoop sent countPer raws filtered newH).1,
          articleHashA a ∈ (filterLoop sent countPer raws filtered newH).2) ∧
      (∀ x ∈ newH, x ∈ (filterLoop sent countPer raws filtered newH).2) ∧
      ((filterLoop sent countPer raws filtered newH).1.map articleHashA).Nodup := by
  intro raws
  induction raws with
  | nil =>
    intro filtered newH hin hnd
    exact ⟨fun a ha => Or.inl ha, fun a ha => hin a ha, fun x hx => hx, hnd⟩
  | cons a rest ih =>
    intro filtered newH hin hnd
    by_cases hacc : articleHashA a ∉ sent ∧ articleHashA a ∉ newH
    · have hunf : filterLoop sent countPer (a :: rest) filtered newH =
          if countPer ≤ (filtered ++ [a]).length
          then (filtered ++ [a], articleHashA a :: newH)
          else filterLoop sent countPer rest (filtered ++ [a])
            (articleHashA a :: newH) := by
        simp only [filterLoop]
        rw [if_pos hacc]
      have hin' : ∀ b ∈ filtered ++ [a], articleHashA b ∈ articleHashA a :: newH := by
        intro b hb
        rcases List.mem_append.mp hb with hb | hb
        · exact List.mem_cons_of_mem _ (hin b hb)
        · rw [List.mem_singleton.mp hb]
          exact List.mem_cons_self _ _
      have hnd' : ((filtered ++ [a]).map articleHashA).Nodup := by
        rw [List.map_append]
        refine List.Nodup.append hnd (by simp) ?_
        intro x hx hy
        rw [List.map_singleton, List.mem_singleton] at hy
        subst hy
        rcases List.mem_map.mp hx with ⟨b, hb, hbe⟩
        exact hacc.2 (hbe ▸ hin b hb)
      by_cases hbrk : countPer ≤ (filtered ++ [a]).length
      · rw [hunf, if_pos hbrk]
        refine ⟨?_, hin', fun x hx => List.mem_cons_of_mem _ hx, hnd'⟩
        intro b hb
        rcases List.mem_append.mp hb with hb | hb
        · exact Or.inl hb
        · rw [List.mem_singleton.mp hb]
          exact Or.inr hacc
      · rw [hunf, if_neg hbrk]
        obtain ⟨i1, i2, i3, i4⟩ := ih (filtered ++ [a]) (articleHashA a :: newH) hin' hnd'
        refine ⟨?_, i2, fun x hx => i3 x (List.mem_cons_of_mem _ hx), i4⟩
        intro b hb
        rcases i1 b hb with hb2 | hb2
        · rcases List.mem_append.mp hb2 with hb3 | hb3
          · exact Or.inl hb3
          · rw [List.mem_singleton.mp hb3]
            exact Or.inr hacc
        · exact Or.inr ⟨hb2.1, fun hm => hb2.2 (List.mem_cons_of_mem _ hm)⟩
    · have hunf : filterLoop sent countPer (a :: rest) filtered newH =
          if countPer ≤ filtered.length then (filtered, newH)
          else filterLoop sent countPer rest filtered newH := by
        simp only [filterLoop]
        rw [if_neg hacc]
      by_cases hbrk : countPer ≤ filtered.length
      · rw [hunf, if_pos hbrk]
        exact ⟨fun b hb => Or.inl hb, fun b hb => hin b hb, fun x hx => hx, hnd⟩
      · rw [hunf, if_neg hbrk]
        exact ih filtered newH hin hnd

theorem scrapeAllLoop_spec (countPer : Nat) (sent : List String) :
    ∀ (entries : List (String × List Article)) (newH : List String),
      (∀ kw arts a, (kw, arts) ∈ (scrapeAllLoop countPer sent entries newH).1 →
          a ∈ arts →
          articleHashA a ∉ sent ∧
            articleHashA a ∈ (scrapeAllLoop countPer sent entries newH).2) ∧
      (∀ x ∈ newH, x ∈ (scrapeAllLoop countPer sent entries newH).2) ∧
      (resultsHashes (scrapeAllLoop countPer sent entries newH).1).Nodup ∧
      (∀ x ∈ resultsHashes (scrapeAllLoop countPer sent entries newH).1, x ∉ newH) := by
  intro entries
  induction entries with
  | nil =>
    intro newH
    refine ⟨?_, fun x hx => hx, by simp [scrapeAllLoop, resultsHashes], ?_⟩
    · intro kw arts a hm
      exact absurd hm (List.not_mem_nil _)
    · intro x hx
      simp [scrapeAllLoop, resultsHashes] at hx
  | cons e rest ih =>
    obtain ⟨kw, raws⟩ := e
    intro newH
    have hunf : scrapeAllLoop countPer sent ((kw, raws) :: rest) newH =
        ((kw, (filterLoop sent countPer raws [] newH).1) ::
            (scrapeAllLoop countPer sent rest
              (filterLoop sent countPer raws [] newH).2).1,
          (scrapeAllLoop countPer sent rest
            (filterLoop sent countPer raws [] newH).2).2) := rfl
    obtain ⟨f1, f2, f3, f4⟩ :=
      filterLoop_spec sent countPer raws [] newH (by simp) (by simp)
    obtain ⟨r1, r2, r3, r4⟩ := ih (filterLoop sent countPer raws [] newH).2
    have hfresh : ∀ a ∈ (filterLoop sent countPer raws [] newH).1,
        articleHashA a ∉ sent ∧ articleHashA a ∉ newH := by
      intro a ha
      rcases f1 a ha with h | h
      · exact absurd h (List.not_mem_nil a)
      · exact h
    rw [hunf]
    refine ⟨?_, ?_, ?_, ?_⟩
    · intro kw' arts a hm ha
      rcases List.mem_cons.mp hm with h | h
      · obtain ⟨-, harts⟩ := Prod.mk.injEq .. ▸ h
        subst harts
        exact ⟨(hfresh a ha).1, r2 _ (f2 a ha)⟩
      · exact r1 kw' arts a h ha
    · intro x hx
      exact r2 x (f3 x hx)
    · show (resultsHashes ((kw, (filterLoop sent countPer raws [] newH).1) ::
        (scrapeAllLoop countPer sent rest
          (filterLoop sent countPer raws [] newH).2).1)).Nodup
      rw [resultsHashes, List.flatMap_cons]
      refine List.Nodup.append f4 r3 ?_
      intro x hx hy
      rcases List.mem_map.mp hx with ⟨b, hb, hbe⟩
      exact r4 x hy (hbe ▸ f2 b hb)
    · intro x hx hmem
      rw [resultsHashes, List.flatMap_cons] at hx
      rcases List.mem_append.mp hx with h | h
      · rcases List.mem_map.mp h with ⟨b, hb, hbe⟩
        exact (hfresh b hb).2 (hbe ▸ hmem)
      · exact r4 x h (f3 x hmem)

/-- C5: in `scrape_all_keywords`, (1) every emitted article's fingerprint
was absent from the loaded dedup store — a candidate whose fingerprint is
in the store is discarded; (2) the fingerprints of all emitted articles,
across the whole run, are pairwise distinct — a candidate whose fingerprint
was already accepted earlier in the run is discarded; (3) consequently, a
second run loading the store persisted by the first excludes every item
whose fingerprint survived into that store. -/
theorem scrapeAllKeywords_dedup (raws : List (String × List Article))
    (countPer : Nat) (sent : List String) :
    (∀ kw arts a, (kw, arts) ∈ (scrapeAllKeywords raws countPer sent).1 →
        a ∈ arts → articleHashA a ∉ sent) ∧
    (resultsHashes (scrapeAllKeywords raws countPer sent).1).Nodup ∧
    (∀ (raws2 : List (String × List Article)) (c2 : Nat) (kw2 : String)
        (arts2 : List Article) (b : Article),
      (kw2, arts2) ∈
          (scrapeAllKeywords raws2 c2 (scrapeAllKeywords raws countPer sent).2).1 →
        b ∈ arts2 → articleHashA b ∉ (scrapeAllKeywords raws countPer sent).2) := by
  have key : ∀ (rws : List (String × List Article)) (c : Nat) (st : List String)
      (kw : String) (arts : List Article) (a : Article),
      (kw, arts) ∈ (scrapeAllKeywords rws c st).1 → a ∈ arts →
        articleHashA a ∉ st := by
    intro rws c st kw arts a hm ha
    have h1 : (scrapeAllKeywords rws c st).1 = (scrapeAllLoop c st rws []).1 := rfl
    rw [h1] at hm
    exact ((scrapeAllLoop_spec c st rws []).1 kw arts a hm ha).1
  refine ⟨fun kw arts a hm ha => key raws countPer sent kw arts a hm ha, ?_,
    fun raws2 c2 kw2 arts2 b hm hb => key raws2 c2 _ kw2 arts2 b hm hb⟩
  have h1 : (scrapeAllKeywords raws countPer sent).1 =
      (scrapeAllLoop countPer sent raws []).1 := rfl
  rw [h1]
  exact (scrapeAllLoop_spec countPer sent raws []).2.2.1

def artA : Article := ⟨"t1", "l1", "", ""⟩

def artB : Article := ⟨"t2", "l2", "", ""⟩

def sentW : List String := [articleHash "t1" "l1"]

def rawsW : List (String × List Article) := [("k", [artA, artB])]

/-- C5 (witness): a run over one keyword with two candidates, the first of
which is already fingerprinted in the loaded store: only the second is
emitted, and the theorem applies to it. -/
theorem scrapeAllKeywords_dedup_witness :
    ("k", [artB]) ∈ (scrapeAllKeywords rawsW 5 sentW).1 ∧
    artB ∈ [artB] ∧
    articleHashA artB ∉ sentW :=
  ⟨by decide, by decide,
    (scrapeAllKeywords_dedup rawsW 5 sentW).1 "k" [artB] artB (by decide) (by decide)⟩

/-- C7: the extraction strategies are tried in the fixed order SDS parser,
legacy parser, generic parser; the first strategy returning at least one
item supplies the chain's result, and the strategies after it are never
invoked (the invocation trace stops at it); if all three return empty, the
extractor returns the empty list as a normal value, not an error. -/
theorem fallbackChain_spec :
    (∀ r1 r2 r3 : List Article, r1 ≠ [] → fallbackChain r1 r2 r3 = (r1, [1])) ∧
    (∀ r2 r3 : List Article, r2 ≠ [] → fallbackChain [] r2 r3 = (r2, [1, 2])) ∧
    (∀ r3 : List Article, fallbackChain [] [] r3 = (r3, [1, 2, 3])) ∧
    (∀ (kw : String) (count : Nat),
      scrapeNaverNewsCore kw count [] [] [] = ([], [1, 2, 3])) := by
  refine ⟨?_, ?_, fun r3 => rfl, ?_⟩
  · intro r1 r2 r3 h
    simp [fallbackChain, h]
  · intro r2 r3 h
    simp [fallbackChain, h]
  · intro kw count
    simp [scrapeNaverNewsCore, fallbackChain]

/-- C7 (witness): the chain theorem applied to concrete strategy outputs:
a nonempty first strategy wins, and with an empty first strategy a nonempty
second strategy wins with strategy 3 not invoked. -/
theorem fallbackChain_spec_witness :
    (([artA] : List Article) ≠ [] ∧ fallbackChain [artA] [artB] [] = ([artA], [1])) ∧
    (([artB] : List Article) ≠ [] ∧ fallbackChain [] [artB] [] = ([artB], [1, 2])) :=
  ⟨⟨by decide, fallbackChain_spec.1 [artA] [artB] [] (by decide)⟩,
    ⟨by decide, fallbackChain_spec.2.1 [artB] [] (by decide)⟩⟩

theorem fetchLoop_length_le (outs : Nat → FetchOutcome) (u : Nat → ℚ) :
    ∀ (l : List Nat) (resp : Option Nat),
      (fetchLoop outs u l resp).2.length ≤
        (l.filter (fun i => decide (i < 2))).length := by
  intro l
  induction l with
  | nil =>
    intro resp
    simp [fetchLoop]
  | cons i rest ih =>
    intro resp
    cases ho : outs i with
    | success => simp [fetchLoop, ho]
    | httpError st =>
      simp only [fetchLoop, ho]
      by_cases hc : st = 403 ∧ i < 2
      · rw [if_pos hc]
        have hfc : (i :: rest).filter (fun i => decide (i < 2)) =
            i :: rest.filter (fun i => decide (i < 2)) := by
          simp [List.filter_cons, hc.2]
        rw [hfc]
        simpa using ih (some st)
      · rw [if_neg hc]
        simp
    | connError =>
      simp only [fetchLoop, ho]
      by_cases hc : resp = some 403 ∧ i < 2
      · rw [if_pos hc]
        have hfc : (i :: rest).filter (fun i => decide (i < 2)) =
            i :: rest.filter (fun i => decide (i < 2)) := by
          simp [List.filter_cons, hc.2]
        rw [hfc]
        simpa using ih resp
      · rw [if_neg hc]
        simp

theorem fetchLoop_sleeps_bound (outs : Nat → FetchOutcome) (u : Nat → ℚ)
    (hu : ∀ i, 3 ≤ u i ∧ u i ≤ 6) :
    ∀ (l : List Nat) (resp : Option Nat) (x : ℚ),
      x ∈ (fetchLoop outs u l resp).2 → 3 ≤ x ∧ x ≤ 6 := by
  intro l
  induction l with
  | nil =>
    intro resp x hx
    simp [fetchLoop] at hx
  | cons i rest ih =>
    intro resp x hx
    cases ho : outs i with
    | success => simp [fetchLoop, ho] at hx
    | httpError st =>
      simp only [fetchLoop, ho] at hx
      by_cases hc : st = 403 ∧ i < 2
      · rw [if_pos hc] at hx
        rcases List.mem_cons.mp hx with h | h
        · subst h
          exact hu i
        · exact ih (some st) x h
      · rw [if_neg hc] at hx
        simp at hx
    | connError =>
      simp only [fetchLoop, ho] at hx
      by_cases hc : resp = some 403 ∧ i < 2
      · rw [if_pos hc] at hx
        rcases List.mem_cons.mp hx with h | h
        · subst h
          exact hu i
        · exact ih resp x h
      · rw [if_neg hc] at hx
        simp at hx

theorem scrapeAllLoop_keywords (countPer : Nat) (sent : List String) :
    ∀ (entries : List (String × List Article)) (newH : List String),
      ((scrapeAllLoop countPer sent entries newH).1).map Prod.fst =
        entries.map Prod.fst := by
  intro entries
  induction entries with
  | nil => intro newH; rfl
  | cons e rest ih =>
    obtain ⟨kw, raws⟩ := e
    intro newH
    have hunf : scrapeAllLoop countPer sent ((kw, raws) :: rest) newH =
        ((kw, (filterLoop sent countPer raws [] newH).1) ::
            (scrapeAllLoop countPer sent rest
              (filterLoop sent countPer raws [] newH).2).1,
          (scrapeAllLoop countPer sent rest
            (filterLoop sent countPer raws [] newH).2).2) := rfl
    rw [hunf]
    show (kw, (filterLoop sent countPer raws [] newH).1).1 ::
        ((scrapeAllLoop countPer sent rest
          (filterLoop sent countPer raws [] newH).2).1).map Prod.fst = _
    rw [ih]
    rfl

/-- C9: in the fetch loop of `scrape_naver_news`, (1) at most 2 retries are
performed for any environment; (2) each retry is preceded by a backoff
sleep drawn from `random.uniform(3.0, 6.0)`, hence within [3, 6]; (3) when
every attempt is rejected with HTTP 403, exactly 2 backoff-and-retry
rounds happen and then the keyword is abandoned; (4) a failed fetch makes
the keyword yield the empty list as a normal return; (5) a connection-level
failure with no prior 403 response aborts immediately with zero items; and
(6) the keyword run always produces one result entry per requested keyword
in order — one keyword failing never aborts the rest of the run. -/
theorem fetch_rate_limit_policy :
    (∀ (outs : Nat → FetchOutcome) (u : Nat → ℚ), (fetchNews outs u).2.length ≤ 2) ∧
    (∀ (outs : Nat → FetchOutcome) (u : Nat → ℚ), (∀ i, 3 ≤ u i ∧ u i ≤ 6) →
      ∀ x ∈ (fetchNews outs u).2, 3 ≤ x ∧ x ≤ 6) ∧
    (∀ u : Nat → ℚ, fetchNews (fun _ => .httpError 403) u = (false, [u 0, u 1])) ∧
    (∀ (outs : Nat → FetchOutcome) (u : Nat → ℚ) (kw : String) (count : Nat)
        (r1 r2 r3 : List Article), (fetchNews outs u).1 = false →
      scrapeNaverNewsFetch outs u kw count r1 r2 r3 = ([], (fetchNews outs u).2)) ∧
    (∀ u : Nat → ℚ, fetchNews (fun _ => .connError) u = (false, [])) ∧
    (∀ (raws : List (String × List Article)) (countPer : Nat) (sent : List String),
      ((scrapeAllKeywords raws countPer sent).1).map Prod.fst =
        raws.map Prod.fst) := by
  refine ⟨?_, ?_, fun u => rfl, ?_, fun u => rfl, ?_⟩
  · intro outs u
    exact le_trans (fetchLoop_length_le outs u [0, 1, 2] none) (by decide)
  · intro outs u hu x hx
    exact fetchLoop_sleeps_bound outs u hu [0, 1, 2] none x hx
  · intro outs u kw count r1 r2 r3 h
    simp [scrapeNaverNewsFetch, h]
  · intro raws countPer sent
    exact scrapeAllLoop_keywords countPer sent raws []

/-- C9 (witness): the policy theorem applied to a concrete uniform draw of
4 seconds, an all-403 environment, and a connection-failure environment. -/
theorem fetch_rate_limit_policy_witness :
    (∀ i : Nat, 3 ≤ (fun _ : Nat => (4 : ℚ)) i ∧ (fun _ : Nat => (4 : ℚ)) i ≤ 6) ∧
    (∀ x ∈ (fetchNews (fun _ => .httpError 403) (fun _ : Nat => (4 : ℚ))).2,
      3 ≤ x ∧ x ≤ 6) ∧
    ((fetchNews (fun _ => FetchOutcome.connError) (fun _ : Nat => (4 : ℚ))).1 = false ∧
      scrapeNaverNewsFetch (fun _ => .connError) (fun _ : Nat => (4 : ℚ))
          "k" 5 [] [] [] =
        ([], (fetchNews (fun _ => FetchOutcome.connError) (fun _ : Nat => (4 : ℚ))).2)) := by
  have hu : ∀ i : Nat, 3 ≤ (fun _ : Nat => (4 : ℚ)) i ∧ (fun _ : Nat => (4 : ℚ)) i ≤ 6 :=
    fun i => ⟨by norm_num, by norm_num⟩
  exact ⟨hu, fetch_rate_limit_policy.2.1 _ _ hu,
    rfl, fetch_rate_limit_policy.2.2.2.1 _ _ "k" 5 [] [] [] rfl⟩

/-- C10 (amended): the fingerprint is a function of the whitespace-stripped
title and whitespace-stripped link alone — in particular two items with
identical title and link always produce the same fingerprint, and a change
confined to leading/trailing whitespace leaves the fingerprint unchanged;
distinctness for other changes holds only with overwhelming probability
(MD5), exemplified here by one concrete link change that does change it. -/
theorem articleHash_spec :
    (∀ t1 l1 t2 l2 : String, pyStrip t1.toList = pyStrip t2.toList →
      pyStrip l1.toList = pyStrip l2.toList →
      articleHash t1 l1 = articleHash t2 l2) ∧
    articleHash "a" "b" ≠ articleHash "a" "c" := by
  constructor
  · intro t1 l1 t2 l2 ht hl
    rw [articleHash, articleHash, ht, hl]
  · decide

/-- C10 (counterexample): a change to the title — appending a trailing
space — always produces the *same* fingerprint (title and link are stripped
before hashing), refuting "any change to either field produces a different
fingerprint with overwhelming probability". -/
theorem articleHash_counterexample :
    ("a " : String) ≠ "a" ∧ articleHash "a " "b" = articleHash "a" "b" :=
  ⟨by decide, rfl⟩

/-- C10 (witness): the amended theorem applied to a concrete pair of items
whose stripped fields agree. -/
theorem articleHash_spec_witness :
    pyStrip ("n\t" : String).toList = pyStrip ("n" : String).toList ∧
    pyStrip ("m" : String).toList = pyStrip ("m" : String).toList ∧
    articleHash "n\t" "m" = articleHash "n" "m" :=
  ⟨by decide, rfl, articleHash_spec.1 "n\t" "m" "n" "m" (by decide) rfl⟩
